import Mathlib

/-!
Shallow embedding of the PaGMO optimisation core and proofs about it.

Two layers of the repository are modelled:

* the legacy `GOclasses` layer (`GOclasses/basic/population.cpp`): the
  `Individual`/`Population` container with its migration primitives
  (`extractRandomDeme`, `insertDeme`, `insertBestInDeme`);
* the newer `pagmo` layer (`src/algorithm/sa_corana.cpp`): the Corana
  simulated-annealing algorithm `sa_corana` (constructor validation and
  `evolve`).

C++ `double` values are modelled by `ℚ`.  The library functions `exp` and
`pow` and the uniform random generator `m_drng` are inputs of the C++ code's
environment, so they are parameters of the embedding (`SAEnv`); theorems that
depend on their analytic properties (`exp x ≥ 1` for `x ≥ 0`, draws in
`[0,1)`, `pow` positive on positive base) take those properties as
hypotheses.
-/

set_option allowUnsafeReducibility true
attribute [semireducible] Rat.add Rat.mul Rat.sub Rat.div Rat.neg Rat.inv

/-! ### List utilities used by the embedding -/

theorem getD_set_self {α : Type} (l : List α) (i : ℕ) (a d : α) (h : i < l.length) :
    (l.set i a).getD i d = a := by
  induction l generalizing i with
  | nil => simp at h
  | cons x t ih =>
    cases i with
    | zero => rfl
    | succ j =>
      have hj : j < t.length := by simpa using h
      simpa [List.set, List.getD_cons_succ] using ih j hj

theorem getD_set_ne {α : Type} (l : List α) (i j : ℕ) (a d : α) (h : i ≠ j) :
    (l.set i a).getD j d = l.getD j d := by
  induction l generalizing i j with
  | nil => simp [List.set]
  | cons x t ih =>
    cases i with
    | zero =>
      cases j with
      | zero => exact absurd rfl h
      | succ j' => simp [List.set, List.getD_cons_succ]
    | succ i' =>
      cases j with
      | zero => simp [List.set]
      | succ j' =>
        have : i' ≠ j' := fun he => h (by rw [he])
        simpa [List.set, List.getD_cons_succ] using ih i' j' this

theorem set_getD_eta {α : Type} (l : List α) (i : ℕ) (d : α) (h : i < l.length) :
    l.set i (l.getD i d) = l := by
  induction l generalizing i with
  | nil => simp at h
  | cons x t ih =>
    cases i with
    | zero => rfl
    | succ j =>
      have hj : j < t.length := by simpa using h
      show x :: t.set j (t.getD j d) = x :: t
      rw [ih j hj]

theorem set_of_length_le {α : Type} (l : List α) (i : ℕ) (a : α) (h : l.length ≤ i) :
    l.set i a = l := by
  induction l generalizing i with
  | nil => simp [List.set]
  | cons x t ih =>
    cases i with
    | zero => simp at h
    | succ j =>
      have hj : t.length ≤ j := by simpa using h
      simp [List.set, ih j hj]

theorem getD_mem {α : Type} (l : List α) (i : ℕ) (d : α) (h : i < l.length) :
    l.getD i d ∈ l := by
  induction l generalizing i with
  | nil => simp at h
  | cons x t ih =>
    cases i with
    | zero => simp
    | succ j =>
      have hj : j < t.length := by simpa using h
      simp only [List.getD_cons_succ]
      exact List.mem_cons_of_mem x (ih j hj)

theorem length_eraseIdx_of_lt {α : Type} (l : List α) (i : ℕ) (h : i < l.length) :
    (l.eraseIdx i).length = l.length - 1 := by
  induction l generalizing i with
  | nil => simp at h
  | cons x t ih =>
    cases i with
    | zero => simp [List.eraseIdx]
    | succ j =>
      have hj : j < t.length := by simpa using h
      cases t with
      | nil => simp at hj
      | cons y u => simp [List.eraseIdx, ih j hj]

theorem mem_of_mem_eraseIdx {α : Type} {l : List α} {i : ℕ} {a : α}
    (h : a ∈ l.eraseIdx i) : a ∈ l :=
  (List.eraseIdx_sublist l i).mem h

theorem nodup_eraseIdx {α : Type} {l : List α} (i : ℕ) (h : l.Nodup) :
    (l.eraseIdx i).Nodup :=
  (List.eraseIdx_sublist l i).nodup h

theorem getD_not_mem_eraseIdx {α : Type} :
    ∀ (l : List α) (i : ℕ) (d : α), l.Nodup → i < l.length → l.getD i d ∉ l.eraseIdx i
  | [], _, _, _, h => by simp at h
  | x :: t, 0, d, hnd, _ => by
      simpa [List.eraseIdx] using (List.nodup_cons.mp hnd).1
  | x :: t, j + 1, d, hnd, h => by
      rcases List.nodup_cons.mp hnd with ⟨hx, ht⟩
      have hj : j < t.length := by simpa using h
      intro hmem
      simp only [List.getD_cons_succ, List.eraseIdx, List.mem_cons] at hmem
      rcases hmem with he | hmem
      · exact hx (by rw [← he]; exact getD_mem t j d hj)
      · exact getD_not_mem_eraseIdx t j d ht hj hmem

theorem getD_tail {α : Type} (l : List α) (j : ℕ) (d : α) :
    l.tail.getD j d = l.getD (j + 1) d := by
  cases l with
  | nil => rfl
  | cons x t => simp [List.getD_cons_succ]

theorem headD_eq_getD_zero {α : Type} (l : List α) (d : α) :
    l.headD d = l.getD 0 d := by
  cases l <;> rfl

theorem nodup_getD_inj :
    ∀ (l : List ℕ), l.Nodup →
      ∀ i j, i < l.length → j < l.length → l.getD i 0 = l.getD j 0 → i = j
  | [], _, i, _, hi, _, _ => by simp at hi
  | x :: t, hl, i, j, hi, hj, he => by
    rcases List.nodup_cons.mp hl with ⟨hx, ht⟩
    cases i with
    | zero =>
      cases j with
      | zero => rfl
      | succ j' =>
        have hj' : j' < t.length := by simpa using hj
        simp only [List.getD_cons_zero, List.getD_cons_succ] at he
        exact absurd (by rw [he]; exact getD_mem t j' 0 hj') hx
    | succ i' =>
      cases j with
      | zero =>
        have hi' : i' < t.length := by simpa using hi
        simp only [List.getD_cons_zero, List.getD_cons_succ] at he
        exact absurd (by rw [← he]; exact getD_mem t i' 0 hi') hx
      | succ j' =>
        have hi' : i' < t.length := by simpa using hi
        have hj' : j' < t.length := by simpa using hj
        have := nodup_getD_inj t ht i' j' hi' hj' (by simpa [List.getD_cons_succ] using he)
        omega

/-! ### Legacy `GOclasses` layer: `GOclasses/basic/population.cpp`

A `Population` is the `std::vector<Individual> pop` member; an `Individual`
carries a decision vector, a velocity vector and a cached scalar fitness
(`getFitness` returns `double` in this layer).  `std::vector::operator[]` is
totalised with `List.getD`; every theorem below carries the in-range
hypotheses under which the C++ accesses are defined. -/

structure Individual where
  x : List ℚ
  v : List ℚ
  fitness : ℚ
deriving DecidableEq, Repr

def indDefault : Individual := ⟨[], [], 0⟩

/-- `Population::addIndividual`: appends a copy (population.cpp lines 37-39). -/
def addIndividual (pop : List Individual) (ind : Individual) : List Individual :=
  pop ++ [ind]

/-- The pick of one loop iteration of `Population::extractRandomDeme`
(population.cpp line 90): `Pick = (int)(Pk::nextDouble(rng) * PossiblePicks.size())`. -/
def demePick (pool : List ℕ) (d : ℚ) : ℕ :=
  (⌊d * (pool.length : ℚ)⌋).toNat

/-- The `for (int i=0; i < N; i++)` loop of `Population::extractRandomDeme`
(population.cpp lines 88-97), with the random generator modelled as the
stream `draws` consumed from index `k` on.  Each iteration picks a position
of the remaining index pool, records the index, copies the corresponding
individual into the deme and erases the index from the pool. -/
def demeLoop (pop : List Individual) (draws : ℕ → ℚ) :
    ℕ → List ℕ → ℕ → List Individual × List ℕ
  | 0, _, _ => ([], [])
  | n + 1, pool, k =>
    let pk := demePick pool (draws k)
    let idx := pool.getD pk 0
    let rest := demeLoop pop draws n (pool.eraseIdx pk) (k + 1)
    (pop.getD idx indDefault :: rest.1, idx :: rest.2)

/-- `Population::extractRandomDeme` (population.cpp lines 79-99): starts from
the pool `[0, ..., size-1]`, runs the pick loop, appends the drawn indices to
the caller's `picks` vector and returns the deme.  The function only reads
`this->pop`; its results are the deme and the updated `picks`. -/
def extractRandomDeme (pop : List Individual) (N : ℕ) (picks : List ℕ)
    (draws : ℕ → ℚ) : List Individual × List ℕ :=
  let r := demeLoop pop draws N (List.range pop.length) 0
  (r.1, picks ++ r.2)

/-- `Population::insertDeme` (population.cpp lines 101-107): walks `picks`
and replaces `pop[picks[i]]` by `deme[i]` whenever the migrant's fitness is
strictly smaller (lower is better in this layer). -/
def insertDeme : List Individual → List Individual → List ℕ → List Individual
  | pop, _, [] => pop
  | pop, deme, pk :: ps =>
    let dh := deme.headD indDefault
    let pop2 := if dh.fitness < (pop.getD pk indDefault).fitness then pop.set pk dh else pop
    insertDeme pop2 deme.tail ps

/-- The single scan of `Population::insertBestInDeme` (population.cpp lines
123-132): one loop from index `1` to `Ndeme - 1` tracking the first position
of the minimal deme fitness (`bestindeme`, strict `<` so ties keep the first
occurrence) and the first position of the maximal incumbent fitness among
`picks` (`worstinpicks`, strict `>`).  `dg i` is `deme[i].getFitness()`,
`pg i` is `pop[picks[i]].getFitness()`. -/
def ibdScan (dg pg : ℕ → ℚ) : ℕ → ℕ → ℕ × ℚ → ℕ × ℚ → (ℕ × ℚ) × (ℕ × ℚ)
  | _, 0, bb, ww => (bb, ww)
  | i, n + 1, bb, ww =>
    let bb2 := if dg i < bb.2 then (i, dg i) else bb
    let ww2 := if pg i > ww.2 then (i, pg i) else ww
    ibdScan dg pg (i + 1) n bb2 ww2

/-- The `(bestindeme, best, worstinpicks, worst)` accumulators of
`Population::insertBestInDeme` after the scan, initialised at index 0
(population.cpp lines 118-121). -/
def ibdIdx (pop deme : List Individual) (picks : List ℕ) : (ℕ × ℚ) × (ℕ × ℚ) :=
  ibdScan (fun i => (deme.getD i indDefault).fitness)
    (fun i => (pop.getD (picks.getD i 0) indDefault).fitness)
    1 (deme.length - 1)
    (0, (deme.getD 0 indDefault).fitness)
    (0, (pop.getD (picks.getD 0 0) indDefault).fitness)

/-- `Population::insertBestInDeme` (population.cpp lines 115-135): replaces
the incumbent at `picks[worstinpicks]` by `deme[bestindeme]`. -/
def insertBestInDeme (pop deme : List Individual) (picks : List ℕ) : List Individual :=
  pop.set (picks.getD (ibdIdx pop deme picks).2.1 0)
    (deme.getD (ibdIdx pop deme picks).1.1 indDefault)

/-! ### Correctness of `extractRandomDeme` -/

theorem demeLoop_spec (pop : List Individual) (draws : ℕ → ℚ)
    (hdraws : ∀ k, 0 ≤ draws k ∧ draws k < 1) :
    ∀ (n : ℕ), ∀ (pool : List ℕ) (k : ℕ),
      pool.Nodup → (∀ i ∈ pool, i < pop.length) → n ≤ pool.length →
      (demeLoop pop draws n pool k).1.length = n ∧
      (demeLoop pop draws n pool k).2.length = n ∧
      (demeLoop pop draws n pool k).2.Nodup ∧
      (∀ i ∈ (demeLoop pop draws n pool k).2, i ∈ pool) ∧
      (∀ j, j < n → (demeLoop pop draws n pool k).1.getD j indDefault
          = pop.getD ((demeLoop pop draws n pool k).2.getD j 0) indDefault) := by
  intro n
  induction n with
  | zero =>
    intro pool k _ _ _
    simp [demeLoop]
  | succ n ih =>
    intro pool k hnd hrange hn
    have hlen : 0 < pool.length := lt_of_lt_of_le (Nat.succ_pos n) hn
    have hpk : demePick pool (draws k) < pool.length := by
      have hql : (0 : ℚ) < (pool.length : ℚ) := by exact_mod_cast hlen
      have h1 : ⌊draws k * (pool.length : ℚ)⌋ < (pool.length : ℤ) := by
        apply Int.floor_lt.mpr
        push_cast
        calc draws k * (pool.length : ℚ) < 1 * (pool.length : ℚ) :=
              mul_lt_mul_of_pos_right (hdraws k).2 hql
          _ = (pool.length : ℚ) := one_mul _
      unfold demePick
      omega
    have hidx : pool.getD (demePick pool (draws k)) 0 ∈ pool :=
      getD_mem pool _ 0 hpk
    have hnd2 : (pool.eraseIdx (demePick pool (draws k))).Nodup := nodup_eraseIdx _ hnd
    have hrange2 : ∀ i ∈ pool.eraseIdx (demePick pool (draws k)), i < pop.length :=
      fun i hi => hrange i (mem_of_mem_eraseIdx hi)
    have hn2 : n ≤ (pool.eraseIdx (demePick pool (draws k))).length := by
      rw [length_eraseIdx_of_lt pool _ hpk]
      omega
    obtain ⟨H1, H2, H3, H4, H5⟩ := ih (pool.eraseIdx (demePick pool (draws k))) (k + 1) hnd2 hrange2 hn2
    simp only [demeLoop]
    refine ⟨by simpa using H1, by simpa using H2, ?_, ?_, ?_⟩
    · refine List.nodup_cons.mpr ⟨fun hm => ?_, H3⟩
      exact getD_not_mem_eraseIdx pool _ 0 hnd hpk (H4 _ hm)
    · intro i hi
      rcases List.mem_cons.mp hi with he | hm
      · exact he ▸ hidx
      · exact mem_of_mem_eraseIdx (H4 i hm)
    · intro j hj
      cases j with
      | zero => simp
      | succ j' =>
        have hj' : j' < n := by omega
        simpa [List.getD_cons_succ] using H5 j' hj'

/-- C5: for `0 ≤ N ≤ size`, `extractRandomDeme(N, picks, rng)` returns a deme
of exactly `N` individuals, appends exactly `N` pairwise-distinct indices in
`[0, size)` to `picks` in draw order, and the `i`-th deme member is the
individual at position `picks[i]` of the source population; the source
population itself is only read, never written. -/
theorem extractRandomDeme_C5 (pop : List Individual) (N : ℕ) (picks : List ℕ)
    (draws : ℕ → ℚ) (hN : N ≤ pop.length) (hdraws : ∀ k, 0 ≤ draws k ∧ draws k < 1) :
    (extractRandomDeme pop N picks draws).1.length = N ∧
    (extractRandomDeme pop N picks draws).2
      = picks ++ (demeLoop pop draws N (List.range pop.length) 0).2 ∧
    (demeLoop pop draws N (List.range pop.length) 0).2.length = N ∧
    (demeLoop pop draws N (List.range pop.length) 0).2.Nodup ∧
    (∀ i ∈ (demeLoop pop draws N (List.range pop.length) 0).2, i < pop.length) ∧
    (∀ j, j < N →
      (extractRandomDeme pop N picks draws).1.getD j indDefault
        = pop.getD ((demeLoop pop draws N (List.range pop.length) 0).2.getD j 0) indDefault) := by
  have hpool : (List.range pop.length).Nodup := List.nodup_range pop.length
  have hr : ∀ i ∈ List.range pop.length, i < pop.length := fun i hi => List.mem_range.mp hi
  have hlen : N ≤ (List.range pop.length).length := by simpa [List.length_range] using hN
  obtain ⟨H1, H2, H3, H4, H5⟩ := demeLoop_spec pop draws hdraws N (List.range pop.length) 0 hpool hr hlen
  exact ⟨H1, rfl, H2, H3, fun i hi => List.mem_range.mp (H4 i hi), H5⟩

/-! ### Correctness of `insertDeme` -/

theorem insertDeme_length :
    ∀ (pop deme : List Individual) (picks : List ℕ),
      (insertDeme pop deme picks).length = pop.length
  | _, _, [] => rfl
  | pop, deme, pk :: ps => by
    simp only [insertDeme]
    by_cases hc : (deme.headD indDefault).fitness < (pop.getD pk indDefault).fitness
    · rw [if_pos hc, insertDeme_length _ deme.tail ps, List.length_set]
    · rw [if_neg hc, insertDeme_length pop deme.tail ps]

theorem insertDeme_getD_not_mem :
    ∀ (pop deme : List Individual) (picks : List ℕ) (q : ℕ), q ∉ picks →
      (insertDeme pop deme picks).getD q indDefault = pop.getD q indDefault
  | _, _, [], _, _ => rfl
  | pop, deme, pk :: ps, q, hq => by
    have hq1 : pk ≠ q := fun h => hq (h ▸ List.mem_cons_self pk ps)
    have hq2 : q ∉ ps := fun h => hq (List.mem_cons_of_mem _ h)
    simp only [insertDeme]
    by_cases hc : (deme.headD indDefault).fitness < (pop.getD pk indDefault).fitness
    · rw [if_pos hc, insertDeme_getD_not_mem _ deme.tail ps q hq2,
        getD_set_ne pop pk q _ indDefault hq1]
    · rw [if_neg hc, insertDeme_getD_not_mem pop deme.tail ps q hq2]

theorem insertDeme_fitness_le :
    ∀ (pop deme : List Individual) (picks : List ℕ) (q : ℕ),
      ((insertDeme pop deme picks).getD q indDefault).fitness
        ≤ ((pop.getD q indDefault).fitness)
  | _, _, [], _ => le_refl _
  | pop, deme, pk :: ps, q => by
    simp only [insertDeme]
    by_cases hc : (deme.headD indDefault).fitness < (pop.getD pk indDefault).fitness
    · rw [if_pos hc]
      refine le_trans (insertDeme_fitness_le _ deme.tail ps q) ?_
      by_cases hq : pk = q
      · subst hq
        by_cases hl : pk < pop.length
        · rw [getD_set_self pop pk _ indDefault hl]
          exact le_of_lt hc
        · rw [set_of_length_le pop pk _ (le_of_not_lt hl)]
      · rw [getD_set_ne pop pk q _ indDefault hq]
    · rw [if_neg hc]
      exact insertDeme_fitness_le pop deme.tail ps q

theorem insertDeme_getD_nodup :
    ∀ (pop deme : List Individual) (picks : List ℕ), picks.Nodup →
      (∀ pk ∈ picks, pk < pop.length) →
      ∀ j, j < picks.length →
        (insertDeme pop deme picks).getD (picks.getD j 0) indDefault
          = if (deme.getD j indDefault).fitness
                < ((pop.getD (picks.getD j 0) indDefault).fitness)
            then deme.getD j indDefault
            else pop.getD (picks.getD j 0) indDefault
  | _, _, [], _, _, j, hj => absurd hj (by simp)
  | pop, deme, pk :: ps, hnd, hrange, 0, _ => by
    rcases List.nodup_cons.mp hnd with ⟨hpk, _⟩
    simp only [insertDeme, List.getD_cons_zero]
    rw [insertDeme_getD_not_mem _ deme.tail ps pk hpk, headD_eq_getD_zero]
    by_cases hc : (deme.getD 0 indDefault).fitness < (pop.getD pk indDefault).fitness
    · rw [if_pos hc, if_pos hc,
        getD_set_self pop pk _ indDefault (hrange pk (List.mem_cons_self pk ps))]
    · rw [if_neg hc, if_neg hc]
  | pop, deme, pk :: ps, hnd, hrange, j + 1, hj => by
    rcases List.nodup_cons.mp hnd with ⟨hpk, hnps⟩
    have hj' : j < ps.length := by simpa using hj
    have hq : ps.getD j 0 ∈ ps := getD_mem ps j 0 hj'
    have hqpk : pk ≠ ps.getD j 0 := fun h => hpk (h ▸ hq)
    simp only [insertDeme, List.getD_cons_succ]
    by_cases hc : (deme.headD indDefault).fitness < (pop.getD pk indDefault).fitness
    · rw [if_pos hc]
      have hrange2 : ∀ x ∈ ps, x < (pop.set pk (deme.headD indDefault)).length := by
        intro x hx
        rw [List.length_set]
        exact hrange x (List.mem_cons_of_mem _ hx)
      rw [insertDeme_getD_nodup _ deme.tail ps hnps hrange2 j hj',
        getD_set_ne pop pk (ps.getD j 0) _ indDefault hqpk, getD_tail]
    · rw [if_neg hc]
      have hrange2 : ∀ x ∈ ps, x < pop.length := fun x hx => hrange x (List.mem_cons_of_mem _ hx)
      rw [insertDeme_getD_nodup pop deme.tail ps hnps hrange2 j hj', getD_tail]

/-- C6: `insertDeme` touches only the positions listed in `picks`; at a
position `picks[i]` the fitness never regresses relative to its pre-call
value; and (for distinct picks, matching the sequential scan of the C++
loop) the incumbent at `picks[i]` is replaced by `deme[i]` exactly when the
migrant's fitness strictly improves on it, and is left unchanged otherwise. -/
theorem insertDeme_C6 (pop deme : List Individual) (picks : List ℕ)
    (hlen : picks.length = deme.length) (hrange : ∀ pk ∈ picks, pk < pop.length) :
    (∀ q, q ∉ picks →
        (insertDeme pop deme picks).getD q indDefault = pop.getD q indDefault) ∧
    (∀ j, j < picks.length →
        ((insertDeme pop deme picks).getD (picks.getD j 0) indDefault).fitness
          ≤ ((pop.getD (picks.getD j 0) indDefault).fitness)) ∧
    (picks.Nodup → ∀ j, j < picks.length →
        (insertDeme pop deme picks).getD (picks.getD j 0) indDefault
          = if (deme.getD j indDefault).fitness
                < ((pop.getD (picks.getD j 0) indDefault).fitness)
            then deme.getD j indDefault
            else pop.getD (picks.getD j 0) indDefault) := by
  refine ⟨fun q hq => insertDeme_getD_not_mem pop deme picks q hq,
    fun j _ => insertDeme_fitness_le pop deme picks (picks.getD j 0),
    fun hnd j hj => insertDeme_getD_nodup pop deme picks hnd hrange j hj⟩

/-! ### Correctness of `insertBestInDeme` -/

theorem ibdScan_spec (dg pg : ℕ → ℚ) :
    ∀ (n : ℕ), ∀ (i : ℕ) (bb ww : ℕ × ℚ),
      bb.1 < i → bb.2 = dg bb.1 → (∀ j, j < i → bb.2 ≤ dg j) → (∀ j, j < bb.1 → bb.2 < dg j) →
      ww.1 < i → ww.2 = pg ww.1 → (∀ j, j < i → pg j ≤ ww.2) → (∀ j, j < ww.1 → pg j < ww.2) →
      (ibdScan dg pg i n bb ww).1.1 < i + n ∧
      (ibdScan dg pg i n bb ww).1.2 = dg (ibdScan dg pg i n bb ww).1.1 ∧
      (∀ j, j < i + n → (ibdScan dg pg i n bb ww).1.2 ≤ dg j) ∧
      (∀ j, j < (ibdScan dg pg i n bb ww).1.1 → (ibdScan dg pg i n bb ww).1.2 < dg j) ∧
      (ibdScan dg pg i n bb ww).2.1 < i + n ∧
      (ibdScan dg pg i n bb ww).2.2 = pg (ibdScan dg pg i n bb ww).2.1 ∧
      (∀ j, j < i + n → pg j ≤ (ibdScan dg pg i n bb ww).2.2) ∧
      (∀ j, j < (ibdScan dg pg i n bb ww).2.1 → pg j < (ibdScan dg pg i n bb ww).2.2) := by
  intro n
  induction n with
  | zero =>
    intro i bb ww hb1 hb2 hb3 hb4 hw1 hw2 hw3 hw4
    simp only [ibdScan, Nat.add_zero]
    exact ⟨hb1, hb2, hb3, hb4, hw1, hw2, hw3, hw4⟩
  | succ n ih =>
    intro i bb ww hb1 hb2 hb3 hb4 hw1 hw2 hw3 hw4
    have harith : i + (n + 1) = (i + 1) + n := by omega
    rw [harith]
    simp only [ibdScan]
    refine ih (i + 1) (if dg i < bb.2 then (i, dg i) else bb)
      (if pg i > ww.2 then (i, pg i) else ww) ?_ ?_ ?_ ?_ ?_ ?_ ?_ ?_
    · by_cases hc : dg i < bb.2
      · rw [if_pos hc]; omega
      · rw [if_neg hc]; omega
    · by_cases hc : dg i < bb.2
      · rw [if_pos hc]
      · rw [if_neg hc]; exact hb2
    · intro j hj
      by_cases hc : dg i < bb.2
      · rw [if_pos hc]
        rcases Nat.lt_succ_iff_lt_or_eq.mp hj with hji | hji
        · exact le_of_lt (lt_of_lt_of_le hc (hb3 j hji))
        · subst hji; exact le_refl _
      · rw [if_neg hc]
        rcases Nat.lt_succ_iff_lt_or_eq.mp hj with hji | hji
        · exact hb3 j hji
        · subst hji; exact le_of_not_lt hc
    · intro j hj
      by_cases hc : dg i < bb.2
      · rw [if_pos hc]
        rw [if_pos hc] at hj
        exact lt_of_lt_of_le hc (hb3 j hj)
      · rw [if_neg hc]
        rw [if_neg hc] at hj
        exact hb4 j hj
    · by_cases hc : pg i > ww.2
      · rw [if_pos hc]; omega
      · rw [if_neg hc]; omega
    · by_cases hc : pg i > ww.2
      · rw [if_pos hc]
      · rw [if_neg hc]; exact hw2
    · intro j hj
      by_cases hc : pg i > ww.2
      · rw [if_pos hc]
        rcases Nat.lt_succ_iff_lt_or_eq.mp hj with hji | hji
        · exact le_of_lt (lt_of_le_of_lt (hw3 j hji) hc)
        · subst hji; exact le_refl _
      · rw [if_neg hc]
        rcases Nat.lt_succ_iff_lt_or_eq.mp hj with hji | hji
        · exact hw3 j hji
        · subst hji; exact le_of_not_lt hc
    · intro j hj
      by_cases hc : pg i > ww.2
      · rw [if_pos hc]
        rw [if_pos hc] at hj
        exact lt_of_le_of_lt (hw3 j hj) hc
      · rw [if_neg hc]
        rw [if_neg hc] at hj
        exact hw4 j hj

/-- C7: `insertBestInDeme` writes exactly one position among `picks`: the
position that held the worst (maximum) fitness among the `picks` positions —
first occurrence on ties — now holds the individual with the best (minimum)
fitness of the deme — again first occurrence on ties; every other position
of the population is left unchanged. -/
theorem insertBestInDeme_C7 (pop deme : List Individual) (picks : List ℕ)
    (hne : deme ≠ []) (hlen : picks.length = deme.length) (hnd : picks.Nodup)
    (hrange : ∀ pk ∈ picks, pk < pop.length) :
    (ibdIdx pop deme picks).1.1 < deme.length ∧
    (∀ j, j < deme.length →
      (deme.getD (ibdIdx pop deme picks).1.1 indDefault).fitness
        ≤ (deme.getD j indDefault).fitness) ∧
    (∀ j, j < (ibdIdx pop deme picks).1.1 →
      (deme.getD (ibdIdx pop deme picks).1.1 indDefault).fitness
        < (deme.getD j indDefault).fitness) ∧
    (ibdIdx pop deme picks).2.1 < deme.length ∧
    (∀ j, j < deme.length →
      (pop.getD (picks.getD j 0) indDefault).fitness
        ≤ (pop.getD (picks.getD (ibdIdx pop deme picks).2.1 0) indDefault).fitness) ∧
    (∀ j, j < (ibdIdx pop deme picks).2.1 →
      (pop.getD (picks.getD j 0) indDefault).fitness
        < (pop.getD (picks.getD (ibdIdx pop deme picks).2.1 0) indDefault).fitness) ∧
    (insertBestInDeme pop deme picks).getD
        (picks.getD (ibdIdx pop deme picks).2.1 0) indDefault
      = deme.getD (ibdIdx pop deme picks).1.1 indDefault ∧
    (∀ j, j < deme.length → j ≠ (ibdIdx pop deme picks).2.1 →
      (insertBestInDeme pop deme picks).getD (picks.getD j 0) indDefault
        = pop.getD (picks.getD j 0) indDefault) ∧
    (∀ q, q ∉ picks →
      (insertBestInDeme pop deme picks).getD q indDefault = pop.getD q indDefault) := by
  have hdpos : 0 < deme.length := List.length_pos.mpr hne
  obtain ⟨H1, H2, H3, H4, H5, H6, H7, H8⟩ :=
    ibdScan_spec (fun i => (deme.getD i indDefault).fitness)
      (fun i => (pop.getD (picks.getD i 0) indDefault).fitness)
      (deme.length - 1) 1
      (0, (deme.getD 0 indDefault).fitness)
      (0, (pop.getD (picks.getD 0 0) indDefault).fitness)
      zero_lt_one rfl
      (by intro j hj; obtain rfl := Nat.lt_one_iff.mp hj; exact le_refl _)
      (by intro j hj; exact absurd hj (Nat.not_lt_zero j))
      zero_lt_one rfl
      (by intro j hj; obtain rfl := Nat.lt_one_iff.mp hj; exact le_refl _)
      (by intro j hj; exact absurd hj (Nat.not_lt_zero j))
  have hidx : ibdIdx pop deme picks
      = ibdScan (fun i => (deme.getD i indDefault).fitness)
        (fun i => (pop.getD (picks.getD i 0) indDefault).fitness)
        1 (deme.length - 1)
        (0, (deme.getD 0 indDefault).fitness)
        (0, (pop.getD (picks.getD 0 0) indDefault).fitness) := rfl
  rw [← hidx] at H1 H2 H3 H4 H5 H6 H7 H8
  have hsum : 1 + (deme.length - 1) = deme.length := by omega
  rw [hsum] at H1 H3 H5 H7
  rw [H2] at H3 H4
  rw [H6] at H7 H8
  have hwlt : (ibdIdx pop deme picks).2.1 < picks.length := by rw [hlen]; exact H5
  have hwmem : picks.getD (ibdIdx pop deme picks).2.1 0 ∈ picks :=
    getD_mem picks _ 0 hwlt
  have hwpop : picks.getD (ibdIdx pop deme picks).2.1 0 < pop.length := hrange _ hwmem
  refine ⟨H1, fun j hj => H3 j hj, fun j hj => H4 j hj, H5,
    fun j hj => H7 j hj, fun j hj => H8 j hj, ?_, ?_, ?_⟩
  · show (pop.set (picks.getD (ibdIdx pop deme picks).2.1 0)
      (deme.getD (ibdIdx pop deme picks).1.1 indDefault)).getD
        (picks.getD (ibdIdx pop deme picks).2.1 0) indDefault
      = deme.getD (ibdIdx pop deme picks).1.1 indDefault
    exact getD_set_self pop _ _ indDefault hwpop
  · intro j hj hjw
    show (pop.set (picks.getD (ibdIdx pop deme picks).2.1 0)
      (deme.getD (ibdIdx pop deme picks).1.1 indDefault)).getD
        (picks.getD j 0) indDefault
      = pop.getD (picks.getD j 0) indDefault
    refine getD_set_ne pop _ _ _ indDefault (fun he => ?_)
    have hjlt : j < picks.length := by rw [hlen]; exact hj
    exact hjw (nodup_getD_inj picks hnd _ _ hwlt hjlt he).symm
  · intro q hq
    show (pop.set (picks.getD (ibdIdx pop deme picks).2.1 0)
      (deme.getD (ibdIdx pop deme picks).1.1 indDefault)).getD q indDefault
      = pop.getD q indDefault
    refine getD_set_ne pop _ _ _ indDefault (fun he => ?_)
    exact hq (he ▸ hwmem)

/-! ### The `pagmo` layer: `src/algorithm/sa_corana.cpp`

The algorithm operates on a `pagmo::population` through `problem()`,
`get_best_idx()`, `get_individual()`, `set_x` and `set_v`.  Only
`sa_corana.cpp` itself is part of the sources, so the population container
and the abstract `problem::base` contract are modelled from the spec
(sections 3, 4.2-4.4). -/

/-- Modelled from the spec: one member of a `pagmo::population` (spec §3
"Individual") — a decision vector, a velocity vector and a cached fitness
vector, accessed by `sa_corana::evolve` as `cur_x`, `cur_v`, `cur_f`. -/
structure PopIndividual where
  cur_x : List ℚ
  cur_v : List ℚ
  cur_f : List ℚ
deriving DecidableEq, Repr

def pindDefault : PopIndividual := ⟨[], [], []⟩

/-- Modelled from the spec: the abstract `problem::base` contract (spec
§4.3) — the five descriptors, the evaluation operation `objfun` and the
strict-improvement predicate `compare_fitness` (`problem/base.h` is not part
of the sources). -/
structure Problem where
  dimension : ℕ
  i_dimension : ℕ
  c_dimension : ℕ
  f_dimension : ℕ
  lb : List ℚ
  ub : List ℚ
  objfun : List ℚ → List ℚ
  compare_fitness : List ℚ → List ℚ → Bool

/-- The lower-is-better scalar comparison of a single-objective,
unconstrained problem (spec §4.3: "e.g. lower scalar value"). -/
def cmpScalar : List ℚ → List ℚ → Bool :=
  fun a b => decide (a.getD 0 0 < b.getD 0 0)

/-- Modelled from the spec: the champion scan of `population.get_best_idx()`
(spec §4.2 `extractBestIndividual`): linear scan by the comparison
predicate, ties broken by first occurrence in index order. -/
def bestScan (h : ℕ → List ℚ) (cmp : List ℚ → List ℚ → Bool) :
    ℕ → ℕ → ℕ → List ℚ → ℕ
  | _, 0, b, _ => b
  | i, n + 1, b, bf =>
    if cmp (h i) bf then bestScan h cmp (i + 1) n i (h i)
    else bestScan h cmp (i + 1) n b bf

/-- Modelled from the spec: `population.get_best_idx()` — index of the first
individual whose fitness no other individual strictly improves on. -/
def get_best_idx (cmp : List ℚ → List ℚ → Bool) (pop : List PopIndividual) : ℕ :=
  bestScan (fun i => (pop.getD i pindDefault).cur_f) cmp
    1 (pop.length - 1) 0 ((pop.getD 0 pindDefault).cur_f)

/-- Modelled from the spec: `population.set_x(idx, x)` overwrites the
decision vector of individual `idx` with `x` and refreshes its cached
fitness by evaluating the problem (spec §3: the fitness cache must be
re-evaluated when the decision vector changes; the call site in
`sa_corana.cpp` line 191 notes "new evaluation is possible here"). -/
def set_x (prob : Problem) (idx : ℕ) (x : List ℚ) (pop : List PopIndividual) :
    List PopIndividual :=
  pop.set idx { pop.getD idx pindDefault with cur_x := x, cur_f := prob.objfun x }

/-- Modelled from the spec: `population.set_v(idx, v)` overwrites the
velocity vector of individual `idx` with `v`. -/
def set_v (idx : ℕ) (v : List ℚ) (pop : List PopIndividual) : List PopIndividual :=
  pop.set idx { pop.getD idx pindDefault with cur_v := v }

/-- The hyperparameters of `sa_corana` (sa_corana.cpp lines 47-48). -/
structure SAParams where
  niter : ℤ
  Ts : ℚ
  Tf : ℚ
  niterT : ℤ
  niterR : ℤ
  range : ℚ
deriving DecidableEq, Repr

/-- The environment of `sa_corana::evolve`: the owned uniform random stream
`m_drng` (successive draws, each in `[0,1)`), and the C library functions
`exp` and `pow` on doubles. -/
structure SAEnv where
  drng : ℕ → ℚ
  expf : ℚ → ℚ
  powf : ℚ → ℚ → ℚ

/-- Constructor validation of `sa_corana::sa_corana` (sa_corana.cpp lines
47-65): each `pagmo_throw(value_error, ...)` is an `Except.error`. -/
def sa_corana_check (p : SAParams) : Except String Unit :=
  if p.niter < 0 then
    Except.error "number of iterations must be nonnegative"
  else if p.Ts ≤ 0 ∨ p.Tf ≤ 0 ∨ p.Ts ≤ p.Tf then
    Except.error "temperatures must be positive and Ts must be greater than Tf"
  else if p.niterT < 0 then
    Except.error "number of iteration before adjusting the temperature must be positive"
  else if p.niterR < 0 then
    Except.error "number of iteration before adjusting the neighbourhood must be positive"
  else if p.range < 0 ∨ p.range > 1 then
    Except.error "Initial range must be between 0 and 1"
  else
    Except.ok ()

/-- The state threaded through the annealing loops of `sa_corana::evolve`
(sa_corana.cpp lines 116-123), plus the random-stream cursor `rk` and a
ghost counter `nevals` of `prob.objfun` calls. -/
structure SAState where
  rk : ℕ
  xNEW : List ℚ
  xOLD : List ℚ
  fNEW : List ℚ
  fOLD : List ℚ
  Step : List ℚ
  acp : List ℤ
  currentT : ℚ
  nevals : ℕ
deriving DecidableEq, Repr

/-- The candidate coordinate of one per-dimension move (sa_corana.cpp lines
134-135): `xOLD[nter] + r * Step[nter] * (ub[nter] - lb[nter])` with
`r = 2.0 * m_drng() - 1.0`. -/
def candOf (prob : Problem) (env : SAEnv) (nter : ℕ) (s : SAState) : ℚ :=
  s.xOLD.getD nter 0
    + (2 * env.drng s.rk - 1) * s.Step.getD nter 0
      * (prob.ub.getD nter 0 - prob.lb.getD nter 0)

/-- One per-dimension move of `sa_corana::evolve` (sa_corana.cpp lines
134-163): perturb coordinate `nter`, revert without evaluation when the
candidate leaves `[lb, ub]`, otherwise evaluate; accept on strict
improvement, else accept when `exp(|fOLD[0] - fNEW[0]| / currentT)` exceeds
a fresh uniform draw, reverting otherwise. -/
def saMove (prob : Problem) (env : SAEnv) (nter : ℕ) (s : SAState) : SAState :=
  let cand := candOf prob env nter s
  let xN := s.xNEW.set nter cand
  if cand > prob.ub.getD nter 0 ∨ cand < prob.lb.getD nter 0 then
    { s with rk := s.rk + 1, xNEW := xN.set nter (s.xOLD.getD nter 0) }
  else
    let fN := prob.objfun xN
    if prob.compare_fitness fN s.fOLD then
      { s with
        rk := s.rk + 1
        xNEW := xN
        fNEW := fN
        xOLD := s.xOLD.set nter cand
        fOLD := fN
        acp := s.acp.set nter (s.acp.getD nter 0 + 1)
        nevals := s.nevals + 1 }
    else
      if env.expf (|s.fOLD.getD 0 0 - fN.getD 0 0| / s.currentT) > env.drng (s.rk + 1) then
        { s with
          rk := s.rk + 2
          xNEW := xN
          fNEW := fN
          xOLD := s.xOLD.set nter cand
          fOLD := fN
          acp := s.acp.set nter (s.acp.getD nter 0 + 1)
          nevals := s.nevals + 1 }
      else
        { s with
          rk := s.rk + 2
          xNEW := xN.set nter (s.xOLD.getD nter 0)
          fNEW := fN
          nevals := s.nevals + 1 }

/-- The `for (size_t numb = 0; numb < Dc; ++numb)` sweep of sa_corana.cpp
lines 130-164: `m` moves left, visiting dimensions round-robin starting
after `nter`. -/
def movesLoop (prob : Problem) (env : SAEnv) (Dc : ℕ) : ℕ → ℕ → SAState → SAState
  | _, 0, s => s
  | nter, m + 1, s =>
    movesLoop prob env Dc ((nter + 1) % Dc) m (saMove prob env ((nter + 1) % Dc) s)

/-- One `kter` iteration (sa_corana.cpp lines 128-165): draw the random
sweep offset `nter = (size_t)(m_drng() * Dc)`, then run one full sweep of
`Dc` moves. -/
def kterBody (prob : Problem) (env : SAEnv) (Dc : ℕ) (s : SAState) : SAState :=
  movesLoop prob env Dc ((⌊env.drng s.rk * (Dc : ℚ)⌋).toNat) Dc { s with rk := s.rk + 1 }

/-- The per-dimension step update of sa_corana.cpp lines 169-184: grow the
step on acceptance ratio above 0.6, shrink below 0.4, clamp at the
configured range. -/
def adjStep (range : ℚ) (niterRq : ℚ) (stepv : ℚ) (acpv : ℤ) : ℚ :=
  let accRatio := (acpv : ℚ) / niterRq
  let s1 :=
    if accRatio > 3/5 then stepv * (1 + 2 * (accRatio - 3/5) / (2/5))
    else if accRatio < 2/5 then stepv / (1 + 2 * ((2/5 - accRatio) / (2/5)))
    else stepv
  if s1 > range then range else s1

/-- The `for (size_t iter = 0; iter < Dc; ++iter)` step-adaptation loop of
sa_corana.cpp lines 169-185, which also resets the acceptance counters. -/
def stepAdjust (p : SAParams) (Dc : ℕ) (s : SAState) : SAState :=
  { s with
    Step := (List.range s.Step.length).map (fun i =>
      if i < Dc then adjStep p.range ((p.niterR : ℚ)) (s.Step.getD i 0) (s.acp.getD i 0)
      else s.Step.getD i 0),
    acp := (List.range s.acp.length).map (fun i =>
      if i < Dc then 0 else s.acp.getD i 0) }

/-- One `mter` iteration (sa_corana.cpp lines 127-186): `niterR` sweeps
followed by the step adaptation. -/
def mterBody (p : SAParams) (prob : Problem) (env : SAEnv) (Dc : ℕ) (s : SAState) : SAState :=
  stepAdjust p Dc ((kterBody prob env Dc)^[p.niterR.toNat] s)

/-- One `jter` iteration (sa_corana.cpp lines 126-189): `niterT` middle
iterations followed by the cooling step `currentT *= Tcoeff`. -/
def jterBody (p : SAParams) (prob : Problem) (env : SAEnv) (Dc : ℕ) (Tcoeff : ℚ)
    (s : SAState) : SAState :=
  let s1 := (mterBody p prob env Dc)^[p.niterT.toNat] s
  { s1 with currentT := s1.currentT * Tcoeff }

/-- `Dc = D - prob_i_dimension` (sa_corana.cpp line 87). -/
def Dc_of (prob : Problem) : ℕ :=
  prob.dimension - prob.i_dimension

/-- The divisor of the outer-loop count, `m_niterT * m_niterR * Dc`
(sa_corana.cpp line 104). -/
def niterDivisor (p : SAParams) (Dc : ℕ) : ℕ :=
  p.niterT.toNat * p.niterR.toNat * Dc

/-- `niterOuter = m_niter / (m_niterT * m_niterR * Dc)` (sa_corana.cpp line
104); the C++ division is undefined when the divisor is zero, which the
embedding totalises as `Nat` division (yielding `0`, caught by the
`niterOuter == 0` guard). -/
def niterOuterOf (p : SAParams) (Dc : ℕ) : ℕ :=
  p.niter.toNat / niterDivisor p Dc

/-- `Tcoeff = pow(m_Tf / m_Ts, 1.0 / niterOuter)` (sa_corana.cpp line 114). -/
def TcoeffOf (p : SAParams) (env : SAEnv) (Dc : ℕ) : ℚ :=
  env.powf (p.Tf / p.Ts) (1 / (niterOuterOf p Dc : ℚ))

/-- The initial loop state of `sa_corana::evolve` (sa_corana.cpp lines
109-123): start from the population champion. -/
def s0Of (p : SAParams) (prob : Problem) (pop : List PopIndividual) : SAState :=
  { rk := 0,
    xNEW := (pop.getD (get_best_idx prob.compare_fitness pop) pindDefault).cur_x,
    xOLD := (pop.getD (get_best_idx prob.compare_fitness pop) pindDefault).cur_x,
    fNEW := (pop.getD (get_best_idx prob.compare_fitness pop) pindDefault).cur_f,
    fOLD := (pop.getD (get_best_idx prob.compare_fitness pop) pindDefault).cur_f,
    Step := List.replicate prob.dimension p.range,
    acp := List.replicate prob.dimension 0,
    currentT := p.Ts,
    nevals := 0 }

/-- The loop state after the three nested annealing loops of
`sa_corana::evolve` complete (sa_corana.cpp lines 126-189). -/
def saFinal (p : SAParams) (env : SAEnv) (prob : Problem) (pop : List PopIndividual) :
    SAState :=
  (jterBody p prob env (Dc_of prob) (TcoeffOf p env (Dc_of prob)))^[niterOuterOf p (Dc_of prob)]
    (s0Of p prob pop)

/-- The population returned by `sa_corana::evolve` (sa_corana.cpp lines
190-194): when the final point strictly improves on the champion's starting
fitness, write it back with `set_x`, then set the velocity to the
`std::transform`-computed coordinate-wise difference between the final point
and the (already overwritten) `cur_x` of the champion. -/
def finalPop (p : SAParams) (env : SAEnv) (prob : Problem) (pop : List PopIndividual) :
    List PopIndividual :=
  let bestidx := get_best_idx prob.compare_fitness pop
  let fit0 := (pop.getD bestidx pindDefault).cur_f
  let sF := saFinal p env prob pop
  if prob.compare_fitness sF.fOLD fit0 then
    let pop1 := set_x prob bestidx sF.xOLD pop
    set_v bestidx
      (List.zipWith (fun a b => a - b) sF.xOLD ((pop1.getD bestidx pindDefault).cur_x)) pop1
  else pop

/-- `sa_corana::evolve` (sa_corana.cpp lines 80-195): the four
`pagmo_throw` guards (lines 91-107) followed by the annealing loops and the
final write-back. -/
def evolve (p : SAParams) (env : SAEnv) (prob : Problem) (pop : List PopIndividual) :
    Except String (List PopIndividual) :=
  if Dc_of prob = 0 then
    Except.error "There is no continuous part in the problem decision vector for sa_corana to optimise"
  else if prob.c_dimension ≠ 0 then
    Except.error "The problem is not box constrained and sa_corana is not suitable to solve it"
  else if prob.f_dimension ≠ 1 then
    Except.error "The problem is not single objective and sa_corana is not suitable to solve it"
  else if niterOuterOf p (Dc_of prob) = 0 then
    Except.error "niterOuter is zero, increase niter"
  else
    Except.ok (finalPop p env prob pop)

instance exceptDecEq {ε α : Type} [DecidableEq ε] [DecidableEq α] :
    DecidableEq (Except ε α)
  | Except.ok x, Except.ok y =>
    if h : x = y then isTrue (by rw [h]) else isFalse (fun he => h (Except.ok.inj he))
  | Except.error x, Except.error y =>
    if h : x = y then isTrue (by rw [h]) else isFalse (fun he => h (Except.error.inj he))
  | Except.ok _, Except.error _ => isFalse (fun he => Except.noConfusion he)
  | Except.error _, Except.ok _ => isFalse (fun he => Except.noConfusion he)

/-! ### Concrete instances used as witnesses and counterexamples -/

/-- A one-dimensional box-constrained single-objective problem: minimise
`x` on `[0, 1]`, lower is better. -/
def probEx : Problem :=
  { dimension := 1, i_dimension := 0, c_dimension := 0, f_dimension := 1,
    lb := [0], ub := [1], objfun := fun x => x, compare_fitness := cmpScalar }

/-- A concrete environment: the random stream constantly `0`, `exp`
modelled by a function with `expf x ≥ 1` for `x ≥ 0`, `pow` by a positive
function. -/
def envEx : SAEnv :=
  { drng := fun _ => 0, expf := fun x => 1 + x, powf := fun b _ => b }

def paramsEx : SAParams :=
  { niter := 1, Ts := 2, Tf := 1, niterT := 1, niterR := 1, range := 1/2 }

def popEx : List PopIndividual :=
  [{ cur_x := [1/2], cur_v := [7], cur_f := [1/2] }]

/-- Hyperparameters with `niter = 0`: accepted by the constructor even
though the iteration budget is not positive. -/
def paramsNiterZero : SAParams :=
  { niter := 0, Ts := 2, Tf := 1, niterT := 1, niterR := 1, range := 1/2 }

/-- Hyperparameters with `niterT = 0`: accepted by the constructor, yet the
outer-loop divisor `niterT * niterR * Dc` is zero. -/
def paramsPeriodZero : SAParams :=
  { niter := 10, Ts := 2, Tf := 1, niterT := 0, niterR := 1, range := 1/2 }

/-! ### C3: constructor validation -/

/-- C3 counterexample: the claim "construction fails if and only if ...
total iteration budget not greater than 0 ..." is false: `niter = 0`
violates "budget > 0" yet `sa_corana`'s constructor accepts it (the guard on
line 50 of sa_corana.cpp tests `niter < 0`, not `niter <= 0`). -/
theorem sa_corana_C3_counterexample :
    ¬ ((sa_corana_check paramsNiterZero ≠ Except.ok ()) ↔
        (paramsNiterZero.niter ≤ 0 ∨ paramsNiterZero.Ts ≤ paramsNiterZero.Tf ∨
         paramsNiterZero.Ts ≤ 0 ∨ paramsNiterZero.Tf ≤ 0 ∨
         paramsNiterZero.niterT < 0 ∨ paramsNiterZero.niterR < 0 ∨
         paramsNiterZero.range < 0 ∨ 1 < paramsNiterZero.range)) := by decide

/-- C3 (amended): constructing `sa_corana` fails with an invalid-argument
error if and only if the total iteration budget is negative, the start
temperature is not greater than the final temperature, either temperature is
not greater than 0, either inner period is negative, or the initial relative
step range lies outside `[0,1]`; the check happens at construction. -/
theorem sa_corana_C3_amended (p : SAParams) :
    (sa_corana_check p ≠ Except.ok ()) ↔
      (p.niter < 0 ∨ p.Ts ≤ p.Tf ∨ p.Ts ≤ 0 ∨ p.Tf ≤ 0 ∨
       p.niterT < 0 ∨ p.niterR < 0 ∨ p.range < 0 ∨ 1 < p.range) := by
  unfold sa_corana_check
  split_ifs with h1 h2 h3 h4 h5
  · exact iff_of_true (fun he => Except.noConfusion he) (Or.inl h1)
  · refine iff_of_true (fun he => Except.noConfusion he) ?_
    rcases h2 with h | h | h
    · exact Or.inr (Or.inr (Or.inl h))
    · exact Or.inr (Or.inr (Or.inr (Or.inl h)))
    · exact Or.inr (Or.inl h)
  · exact iff_of_true (fun he => Except.noConfusion he)
      (Or.inr (Or.inr (Or.inr (Or.inr (Or.inl h3)))))
  · exact iff_of_true (fun he => Except.noConfusion he)
      (Or.inr (Or.inr (Or.inr (Or.inr (Or.inr (Or.inl h4))))))
  · refine iff_of_true (fun he => Except.noConfusion he) ?_
    rcases h5 with h | h
    · exact Or.inr (Or.inr (Or.inr (Or.inr (Or.inr (Or.inr (Or.inl h))))))
    · exact Or.inr (Or.inr (Or.inr (Or.inr (Or.inr (Or.inr (Or.inr h))))))
  · push_neg at h2 h5
    refine iff_of_false (fun he => he rfl) ?_
    rintro (h | h | h | h | h | h | h | h)
    · exact h1 h
    · exact absurd h (not_le_of_lt h2.2.2)
    · exact absurd h (not_le_of_lt h2.1)
    · exact absurd h (not_le_of_lt h2.2.1)
    · exact h3 h
    · exact h4 h
    · exact absurd h (not_lt_of_le h5.1)
    · exact absurd h (not_lt_of_le h5.2)

/-! ### C10: accepted hyperparameters that zero the outer-loop divisor -/

/-- C10: there are hyperparameters the constructor accepts (here
`niterT = 0`) for which the divisor of `niterOuter = niter / (niterT *
niterR * Dc)` is zero — an undefined division in the C++ code; and for any
accepted hyperparameters and any nonempty continuous part, the divisor is
nonzero exactly when both inner periods are at least 1. -/
theorem sa_corana_C10 :
    sa_corana_check paramsPeriodZero = Except.ok () ∧
    niterDivisor paramsPeriodZero 3 = 0 ∧
    (∀ (p : SAParams) (Dc : ℕ), sa_corana_check p = Except.ok () → 1 ≤ Dc →
      (niterDivisor p Dc ≠ 0 ↔ 1 ≤ p.niterT ∧ 1 ≤ p.niterR)) := by
  refine ⟨by decide, by decide, ?_⟩
  intro p Dc _hok hDc
  unfold niterDivisor
  constructor
  · intro hne
    constructor
    · by_contra h
      push_neg at h
      have ht : p.niterT.toNat = 0 := by omega
      exact hne (by rw [ht]; simp)
    · by_contra h
      push_neg at h
      have ht : p.niterR.toNat = 0 := by omega
      exact hne (by rw [ht]; simp)
  · rintro ⟨h1, h2⟩ hz
    have ht : 1 ≤ p.niterT.toNat := by omega
    have hr : 1 ≤ p.niterR.toNat := by omega
    have hge : 1 * 1 * 1 ≤ p.niterT.toNat * p.niterR.toNat * Dc :=
      Nat.mul_le_mul (Nat.mul_le_mul ht hr) hDc
    omega

/-- C10 witness: the general equivalence instantiated at accepted
hyperparameters with both periods positive and a one-dimensional continuous
part. -/
theorem sa_corana_C10_witness :
    niterDivisor paramsEx 1 ≠ 0 ↔ 1 ≤ paramsEx.niterT ∧ 1 ≤ paramsEx.niterR :=
  sa_corana_C10.2.2 paramsEx 1 (by decide) (by decide)

/-! ### C2 and C9: the per-dimension move -/

/-- Case analysis of one per-dimension move of `sa_corana::evolve`
(sa_corana.cpp lines 134-163). -/
theorem saMove_cases (prob : Problem) (env : SAEnv) (nter : ℕ) (s : SAState) :
    ((candOf prob env nter s > prob.ub.getD nter 0 ∨
        candOf prob env nter s < prob.lb.getD nter 0) →
      (saMove prob env nter s).xOLD = s.xOLD ∧
      (saMove prob env nter s).fOLD = s.fOLD ∧
      (saMove prob env nter s).nevals = s.nevals ∧
      (saMove prob env nter s).acp = s.acp ∧
      (saMove prob env nter s).xNEW
        = (s.xNEW.set nter (candOf prob env nter s)).set nter (s.xOLD.getD nter 0)) ∧
    (¬(candOf prob env nter s > prob.ub.getD nter 0 ∨
        candOf prob env nter s < prob.lb.getD nter 0) →
      prob.compare_fitness (prob.objfun (s.xNEW.set nter (candOf prob env nter s))) s.fOLD
          = true →
      (saMove prob env nter s).xOLD = s.xOLD.set nter (candOf prob env nter s) ∧
      (saMove prob env nter s).fOLD = prob.objfun (s.xNEW.set nter (candOf prob env nter s)) ∧
      (saMove prob env nter s).nevals = s.nevals + 1 ∧
      (saMove prob env nter s).acp = s.acp.set nter (s.acp.getD nter 0 + 1) ∧
      (saMove prob env nter s).xNEW = s.xNEW.set nter (candOf prob env nter s)) ∧
    (¬(candOf prob env nter s > prob.ub.getD nter 0 ∨
        candOf prob env nter s < prob.lb.getD nter 0) →
      prob.compare_fitness (prob.objfun (s.xNEW.set nter (candOf prob env nter s))) s.fOLD
          = false →
      ((env.expf (|s.fOLD.getD 0 0
            - (prob.objfun (s.xNEW.set nter (candOf prob env nter s))).getD 0 0|
            / s.currentT) > env.drng (s.rk + 1) →
        (saMove prob env nter s).xOLD = s.xOLD.set nter (candOf prob env nter s) ∧
        (saMove prob env nter s).fOLD
          = prob.objfun (s.xNEW.set nter (candOf prob env nter s)) ∧
        (saMove prob env nter s).nevals = s.nevals + 1 ∧
        (saMove prob env nter s).acp = s.acp.set nter (s.acp.getD nter 0 + 1) ∧
        (saMove prob env nter s).xNEW = s.xNEW.set nter (candOf prob env nter s)) ∧
      (¬(env.expf (|s.fOLD.getD 0 0
            - (prob.objfun (s.xNEW.set nter (candOf prob env nter s))).getD 0 0|
            / s.currentT) > env.drng (s.rk + 1)) →
        (saMove prob env nter s).xOLD = s.xOLD ∧
        (saMove prob env nter s).fOLD = s.fOLD ∧
        (saMove prob env nter s).acp = s.acp ∧
        (saMove prob env nter s).nevals = s.nevals + 1 ∧
        (saMove prob env nter s).xNEW
          = (s.xNEW.set nter (candOf prob env nter s)).set nter (s.xOLD.getD nter 0)))) := by
  refine ⟨?_, ?_, ?_⟩
  · intro hout
    simp only [saMove]
    rw [if_pos hout]
    exact ⟨rfl, rfl, rfl, rfl, rfl⟩
  · intro hout hcmp
    simp only [saMove]
    rw [if_neg hout]
    simp only [hcmp, if_true]
    exact ⟨trivial, trivial, trivial, trivial, trivial⟩
  · intro hout hcmp
    constructor
    · intro hacc
      simp only [saMove]
      rw [if_neg hout]
      simp only [hcmp, Bool.false_eq_true, if_false]
      rw [if_pos hacc]
      exact ⟨rfl, rfl, rfl, rfl, rfl⟩
    · intro hacc
      simp only [saMove]
      rw [if_neg hout]
      simp only [hcmp, Bool.false_eq_true, if_false]
      rw [if_neg hacc]
      exact ⟨rfl, rfl, rfl, rfl, rfl⟩

/-- C9: with `exp x ≥ 1` for `x ≥ 0` (true of the real exponential), a
strictly positive current temperature (invariant of the run, since
`currentT` starts at `Ts > 0` and is only multiplied by the positive
cooling coefficient) and uniform draws strictly below 1, every in-bounds
candidate is accepted: the Boltzmann probability `exp(|fOLD - fNEW| /
currentT)` is at least 1 and therefore exceeds the draw, so the reverting
else-branch of the Boltzmann test (sa_corana.cpp lines 160-162) is
unreachable and rejections happen only for out-of-bounds candidates. -/
theorem saMove_C9 (prob : Problem) (env : SAEnv) (nter : ℕ) (s : SAState)
    (hT : 0 < s.currentT)
    (hexp : ∀ x : ℚ, 0 ≤ x → 1 ≤ env.expf x)
    (hdr : ∀ k, env.drng k < 1)
    (hin : ¬(candOf prob env nter s > prob.ub.getD nter 0 ∨
        candOf prob env nter s < prob.lb.getD nter 0)) :
    (saMove prob env nter s).xOLD = s.xOLD.set nter (candOf prob env nter s) ∧
    (saMove prob env nter s).fOLD
      = prob.objfun (s.xNEW.set nter (candOf prob env nter s)) ∧
    (saMove prob env nter s).nevals = s.nevals + 1 ∧
    (saMove prob env nter s).acp = s.acp.set nter (s.acp.getD nter 0 + 1) := by
  have hacc : env.expf (|s.fOLD.getD 0 0
        - (prob.objfun (s.xNEW.set nter (candOf prob env nter s))).getD 0 0|
        / s.currentT) > env.drng (s.rk + 1) := by
    have h0 : (0 : ℚ) ≤ |s.fOLD.getD 0 0
        - (prob.objfun (s.xNEW.set nter (candOf prob env nter s))).getD 0 0|
        / s.currentT :=
      div_nonneg (abs_nonneg _) (le_of_lt hT)
    exact lt_of_lt_of_le (hdr (s.rk + 1)) (hexp _ h0)
  cases hc : prob.compare_fitness (prob.objfun (s.xNEW.set nter (candOf prob env nter s))) s.fOLD with
  | false =>
    obtain ⟨h1, h2, h3, h4, _⟩ := ((saMove_cases prob env nter s).2.2 hin hc).1 hacc
    exact ⟨h1, h2, h3, h4⟩
  | true =>
    obtain ⟨h1, h2, h3, h4, _⟩ := (saMove_cases prob env nter s).2.1 hin hc
    exact ⟨h1, h2, h3, h4⟩

/-- C2: in every per-dimension move of `sa_corana::evolve`, an out-of-bounds
candidate is reverted with no objective evaluation (`nevals`, `xOLD`,
`fOLD`, `acp` unchanged, the trial coordinate restored); an in-bounds
strictly improving candidate (per the problem's `compare_fitness`) is
accepted; a non-improving in-bounds candidate is accepted exactly when
`exp(|fOLD - fNEW| / currentT)` exceeds a fresh uniform draw, and reverted
otherwise (after exactly one evaluation). -/
theorem saMove_C2 (prob : Problem) (env : SAEnv) (nter : ℕ) (s : SAState) :
    ((candOf prob env nter s > prob.ub.getD nter 0 ∨
        candOf prob env nter s < prob.lb.getD nter 0) →
      (saMove prob env nter s).xOLD = s.xOLD ∧
      (saMove prob env nter s).fOLD = s.fOLD ∧
      (saMove prob env nter s).nevals = s.nevals ∧
      (saMove prob env nter s).acp = s.acp ∧
      (saMove prob env nter s).xNEW
        = (s.xNEW.set nter (candOf prob env nter s)).set nter (s.xOLD.getD nter 0)) ∧
    (¬(candOf prob env nter s > prob.ub.getD nter 0 ∨
        candOf prob env nter s < prob.lb.getD nter 0) →
      prob.compare_fitness (prob.objfun (s.xNEW.set nter (candOf prob env nter s))) s.fOLD
          = true →
      (saMove prob env nter s).xOLD = s.xOLD.set nter (candOf prob env nter s) ∧
      (saMove prob env nter s).fOLD = prob.objfun (s.xNEW.set nter (candOf prob env nter s)) ∧
      (saMove prob env nter s).nevals = s.nevals + 1 ∧
      (saMove prob env nter s).acp = s.acp.set nter (s.acp.getD nter 0 + 1) ∧
      (saMove prob env nter s).xNEW = s.xNEW.set nter (candOf prob env nter s)) ∧
    (¬(candOf prob env nter s > prob.ub.getD nter 0 ∨
        candOf prob env nter s < prob.lb.getD nter 0) →
      prob.compare_fitness (prob.objfun (s.xNEW.set nter (candOf prob env nter s))) s.fOLD
          = false →
      ((env.expf (|s.fOLD.getD 0 0
            - (prob.objfun (s.xNEW.set nter (candOf prob env nter s))).getD 0 0|
            / s.currentT) > env.drng (s.rk + 1) →
        (saMove prob env nter s).xOLD = s.xOLD.set nter (candOf prob env nter s) ∧
        (saMove prob env nter s).fOLD
          = prob.objfun (s.xNEW.set nter (candOf prob env nter s)) ∧
        (saMove prob env nter s).nevals = s.nevals + 1 ∧
        (saMove prob env nter s).acp = s.acp.set nter (s.acp.getD nter 0 + 1) ∧
        (saMove prob env nter s).xNEW = s.xNEW.set nter (candOf prob env nter s)) ∧
      (¬(env.expf (|s.fOLD.getD 0 0
            - (prob.objfun (s.xNEW.set nter (candOf prob env nter s))).getD 0 0|
            / s.currentT) > env.drng (s.rk + 1)) →
        (saMove prob env nter s).xOLD = s.xOLD ∧
        (saMove prob env nter s).fOLD = s.fOLD ∧
        (saMove prob env nter s).acp = s.acp ∧
        (saMove prob env nter s).nevals = s.nevals + 1 ∧
        (saMove prob env nter s).xNEW
          = (s.xNEW.set nter (candOf prob env nter s)).set nter (s.xOLD.getD nter 0)))) :=
  saMove_cases prob env nter s

/-! ### Run invariants of `sa_corana::evolve` -/

/-- The working point lies componentwise within the box `[lb, ub]` on the
first `Dc` (continuous) coordinates. -/
def InBounds (lb ub : List ℚ) (Dc : ℕ) (x : List ℚ) : Prop :=
  ∀ k, k < Dc → lb.getD k 0 ≤ x.getD k 0 ∧ x.getD k 0 ≤ ub.getD k 0

instance (lb ub : List ℚ) (Dc : ℕ) (x : List ℚ) : Decidable (InBounds lb ub Dc x) := by
  unfold InBounds
  infer_instance

theorem inBounds_set (lb ub : List ℚ) (Dc : ℕ) (x : List ℚ) (nter : ℕ) (c : ℚ)
    (h : InBounds lb ub Dc x) (hc1 : lb.getD nter 0 ≤ c) (hc2 : c ≤ ub.getD nter 0) :
    InBounds lb ub Dc (x.set nter c) := by
  intro k hk
  by_cases hkn : k = nter
  · subst hkn
    by_cases hlt : k < x.length
    · rw [getD_set_self x k c 0 hlt]
      exact ⟨hc1, hc2⟩
    · rw [set_of_length_le x k c (le_of_not_lt hlt)]
      exact h k hk
  · rw [getD_set_ne x nter k c 0 (fun he => hkn he.symm)]
    exact h k hk

/-- The loop invariant of the annealing sweeps: the trial vector mirrors the
current vector at move boundaries, the current vector is in bounds, and
`fOLD` caches the objective value of the current vector. -/
def SInv (prob : Problem) (Dc : ℕ) (s : SAState) : Prop :=
  s.xNEW = s.xOLD ∧ InBounds prob.lb prob.ub Dc s.xOLD ∧ s.fOLD = prob.objfun s.xOLD

theorem saMove_bounds (prob : Problem) (env : SAEnv) (Dc nter : ℕ) (s : SAState)
    (_hn : nter < Dc) (h : InBounds prob.lb prob.ub Dc s.xOLD) :
    InBounds prob.lb prob.ub Dc (saMove prob env nter s).xOLD := by
  by_cases hout : (candOf prob env nter s > prob.ub.getD nter 0 ∨
      candOf prob env nter s < prob.lb.getD nter 0)
  · rw [((saMove_cases prob env nter s).1 hout).1]
    exact h
  · have hle : prob.lb.getD nter 0 ≤ candOf prob env nter s ∧
        candOf prob env nter s ≤ prob.ub.getD nter 0 := by
      push_neg at hout
      exact ⟨hout.2, hout.1⟩
    have hset := inBounds_set prob.lb prob.ub Dc s.xOLD nter (candOf prob env nter s)
      h hle.1 hle.2
    cases hc : prob.compare_fitness
        (prob.objfun (s.xNEW.set nter (candOf prob env nter s))) s.fOLD with
    | true =>
      rw [((saMove_cases prob env nter s).2.1 hout hc).1]
      exact hset
    | false =>
      by_cases hacc : env.expf (|s.fOLD.getD 0 0
          - (prob.objfun (s.xNEW.set nter (candOf prob env nter s))).getD 0 0|
          / s.currentT) > env.drng (s.rk + 1)
      · rw [((((saMove_cases prob env nter s).2.2) hout hc).1 hacc).1]
        exact hset
      · rw [((((saMove_cases prob env nter s).2.2) hout hc).2 hacc).1]
        exact h

theorem saMove_SInv (prob : Problem) (env : SAEnv) (Dc nter : ℕ) (s : SAState)
    (hn : nter < Dc) (h : SInv prob Dc s) : SInv prob Dc (saMove prob env nter s) := by
  obtain ⟨hxe, hb, hf⟩ := h
  by_cases hout : (candOf prob env nter s > prob.ub.getD nter 0 ∨
      candOf prob env nter s < prob.lb.getD nter 0)
  · obtain ⟨h1, h2, _, _, h5⟩ := (saMove_cases prob env nter s).1 hout
    have hx : (saMove prob env nter s).xNEW = s.xOLD.set nter (s.xOLD.getD nter 0) := by
      rw [h5, hxe, List.set_set]
    refine ⟨?_, ?_, ?_⟩
    · by_cases hlt : nter < s.xOLD.length
      · rw [hx, set_getD_eta s.xOLD nter 0 hlt, h1]
      · rw [hx, set_of_length_le s.xOLD nter _ (le_of_not_lt hlt), h1]
    · rw [h1]; exact hb
    · rw [h2, h1]; exact hf
  · have hle : prob.lb.getD nter 0 ≤ candOf prob env nter s ∧
        candOf prob env nter s ≤ prob.ub.getD nter 0 := by
      push_neg at hout
      exact ⟨hout.2, hout.1⟩
    have hset := inBounds_set prob.lb prob.ub Dc s.xOLD nter (candOf prob env nter s)
      hb hle.1 hle.2
    have haccept : ∀ (H : (saMove prob env nter s).xOLD
            = s.xOLD.set nter (candOf prob env nter s))
        (H2 : (saMove prob env nter s).fOLD
            = prob.objfun (s.xNEW.set nter (candOf prob env nter s)))
        (H5 : (saMove prob env nter s).xNEW
            = s.xNEW.set nter (candOf prob env nter s)),
        SInv prob Dc (saMove prob env nter s) := by
      intro H H2 H5
      refine ⟨?_, ?_, ?_⟩
      · rw [H5, H, hxe]
      · rw [H]; exact hset
      · rw [H2, H, hxe]
    cases hc : prob.compare_fitness
        (prob.objfun (s.xNEW.set nter (candOf prob env nter s))) s.fOLD with
    | true =>
      obtain ⟨h1, h2, _, _, h5⟩ := (saMove_cases prob env nter s).2.1 hout hc
      exact haccept h1 h2 h5
    | false =>
      by_cases hacc : env.expf (|s.fOLD.getD 0 0
          - (prob.objfun (s.xNEW.set nter (candOf prob env nter s))).getD 0 0|
          / s.currentT) > env.drng (s.rk + 1)
      · obtain ⟨h1, h2, _, _, h5⟩ := (((saMove_cases prob env nter s).2.2) hout hc).1 hacc
        exact haccept h1 h2 h5
      · obtain ⟨h1, h2, _, _, h5⟩ := (((saMove_cases prob env nter s).2.2) hout hc).2 hacc
        have hx : (saMove prob env nter s).xNEW = s.xOLD.set nter (s.xOLD.getD nter 0) := by
          rw [h5, hxe, List.set_set]
        refine ⟨?_, ?_, ?_⟩
        · by_cases hlt : nter < s.xOLD.length
          · rw [hx, set_getD_eta s.xOLD nter 0 hlt, h1]
          · rw [hx, set_of_length_le s.xOLD nter _ (le_of_not_lt hlt), h1]
        · rw [h1]; exact hb
        · rw [h2, h1]; exact hf

theorem movesLoop_SInv (prob : Problem) (env : SAEnv) (Dc : ℕ) (hDc : 0 < Dc) :
    ∀ (m nter : ℕ) (s : SAState), SInv prob Dc s →
      SInv prob Dc (movesLoop prob env Dc nter m s)
  | 0, _, _, h => h
  | m + 1, nter, s, h => by
    simp only [movesLoop]
    exact movesLoop_SInv prob env Dc hDc m _ _
      (saMove_SInv prob env Dc _ s (Nat.mod_lt _ hDc) h)

theorem iterInv {α : Type} (f : α → α) (P : α → Prop) (hf : ∀ a, P a → P (f a)) :
    ∀ (n : ℕ) (a : α), P a → P (f^[n] a)
  | 0, _, h => h
  | n + 1, a, h => by
    rw [Function.iterate_succ_apply]
    exact iterInv f P hf n (f a) (hf a h)

theorem saFinal_SInv (p : SAParams) (env : SAEnv) (prob : Problem)
    (pop : List PopIndividual) (hDc : 0 < Dc_of prob)
    (h0 : SInv prob (Dc_of prob) (s0Of p prob pop)) :
    SInv prob (Dc_of prob) (saFinal p env prob pop) := by
  unfold saFinal
  refine iterInv _ _ ?_ _ _ h0
  intro s hs
  unfold jterBody
  have h1 : SInv prob (Dc_of prob) ((mterBody p prob env (Dc_of prob))^[p.niterT.toNat] s) := by
    refine iterInv _ _ ?_ _ _ hs
    intro s2 hs2
    unfold mterBody
    have h2 : SInv prob (Dc_of prob) ((kterBody prob env (Dc_of prob))^[p.niterR.toNat] s2) := by
      refine iterInv _ _ ?_ _ _ hs2
      intro s3 hs3
      unfold kterBody
      exact movesLoop_SInv prob env (Dc_of prob) hDc _ _ _ hs3
    exact h2
  exact h1

theorem bestScan_le (h : ℕ → List ℚ) :
    ∀ (n i b : ℕ) (bf : List ℚ), b < i → bf = h b →
      (∀ j, j < i → (h b).getD 0 0 ≤ (h j).getD 0 0) →
      (bestScan h cmpScalar i n b bf < i + n ∧
        ∀ j, j < i + n →
          (h (bestScan h cmpScalar i n b bf)).getD 0 0 ≤ (h j).getD 0 0)
  | 0, i, b, bf, hb, _, hmin => by
    simp only [bestScan, Nat.add_zero]
    exact ⟨hb, hmin⟩
  | n + 1, i, b, bf, hb, hbf, hmin => by
    subst hbf
    have harith : i + (n + 1) = (i + 1) + n := by omega
    rw [harith]
    simp only [bestScan]
    by_cases hc : cmpScalar (h i) (h b) = true
    · rw [if_pos hc]
      have hlt : (h i).getD 0 0 < (h b).getD 0 0 := by
        simp only [cmpScalar] at hc
        exact of_decide_eq_true hc
      refine bestScan_le h n (i + 1) i (h i) (Nat.lt_succ_self i) rfl ?_
      intro j hj
      rcases Nat.lt_succ_iff_lt_or_eq.mp hj with hji | hji
      · exact le_of_lt (lt_of_lt_of_le hlt (hmin j hji))
      · subst hji
        exact le_refl _
    · rw [if_neg hc]
      have hge : (h b).getD 0 0 ≤ (h i).getD 0 0 := by
        simp only [cmpScalar] at hc
        exact le_of_not_lt (fun hlt => hc (decide_eq_true hlt))
      refine bestScan_le h n (i + 1) b (h b) (by omega) rfl ?_
      intro j hj
      rcases Nat.lt_succ_iff_lt_or_eq.mp hj with hji | hji
      · exact hmin j hji
      · subst hji
        exact hge

theorem get_best_idx_spec (pop : List PopIndividual) (hne : pop ≠ []) :
    get_best_idx cmpScalar pop < pop.length ∧
    ∀ j, j < pop.length →
      ((pop.getD (get_best_idx cmpScalar pop) pindDefault).cur_f).getD 0 0
        ≤ ((pop.getD j pindDefault).cur_f).getD 0 0 := by
  have hpos : 0 < pop.length := List.length_pos.mpr hne
  obtain ⟨H1, H2⟩ := bestScan_le (fun i => (pop.getD i pindDefault).cur_f)
    (pop.length - 1) 1 0 ((pop.getD 0 pindDefault).cur_f) zero_lt_one rfl
    (fun j hj => by obtain rfl := Nat.lt_one_iff.mp hj; exact le_refl _)
  have hsum : 1 + (pop.length - 1) = pop.length := by omega
  rw [hsum] at H1 H2
  exact ⟨H1, H2⟩

theorem best_after_write (prob : Problem) (pop : List PopIndividual) (B : ℕ)
    (x v : List ℚ) (hB : B < pop.length) (hne : pop ≠ []) :
    ((set_v B v (set_x prob B x pop)).getD
        (get_best_idx cmpScalar (set_v B v (set_x prob B x pop))) pindDefault).cur_f.getD 0 0
      ≤ (prob.objfun x).getD 0 0 := by
  have hlen1 : (set_x prob B x pop).length = pop.length := by
    unfold set_x
    exact List.length_set pop _ _
  have hlen2 : (set_v B v (set_x prob B x pop)).length = pop.length := by
    unfold set_v
    rw [List.length_set]
    exact hlen1
  have hne2 : set_v B v (set_x prob B x pop) ≠ [] := by
    refine List.length_pos.mp ?_
    rw [hlen2]
    exact List.length_pos.mpr hne
  have hgdB : ((set_v B v (set_x prob B x pop)).getD B pindDefault).cur_f = prob.objfun x := by
    unfold set_v
    rw [getD_set_self _ _ _ pindDefault (by rw [hlen1]; exact hB)]
    show ((set_x prob B x pop).getD B pindDefault).cur_f = prob.objfun x
    unfold set_x
    rw [getD_set_self pop _ _ pindDefault hB]
  have hstep := (get_best_idx_spec _ hne2).2 B (by rw [hlen2]; exact hB)
  rw [hgdB] at hstep
  exact hstep

/-- C8: for a purely continuous problem with the lower-is-better scalar
comparison, an evaluated population whose members lie within `[lb, ub]`, and
a successful run of `sa_corana::evolve`: the best fitness of the returned
population is at most the best fitness of the input population, the final
working decision vector is componentwise within `[lb, ub]`, and every
per-dimension move preserves the in-bounds property of the working vector
(so the working vector is inside the box throughout the run). -/
theorem evolve_C8 (p : SAParams) (env : SAEnv) (prob : Problem)
    (pop pop' : List PopIndividual)
    (hi : prob.i_dimension = 0)
    (hcmp : prob.compare_fitness = cmpScalar)
    (hne : pop ≠ [])
    (heval : ∀ ind ∈ pop, ind.cur_f = prob.objfun ind.cur_x)
    (hbnd : ∀ ind ∈ pop, InBounds prob.lb prob.ub prob.dimension ind.cur_x)
    (hrun : evolve p env prob pop = Except.ok pop') :
    ((pop'.getD (get_best_idx prob.compare_fitness pop') pindDefault).cur_f).getD 0 0
      ≤ ((pop.getD (get_best_idx prob.compare_fitness pop) pindDefault).cur_f).getD 0 0 ∧
    InBounds prob.lb prob.ub prob.dimension (saFinal p env prob pop).xOLD ∧
    (∀ (s : SAState) (nter : ℕ), nter < prob.dimension →
      InBounds prob.lb prob.ub prob.dimension s.xOLD →
      InBounds prob.lb prob.ub prob.dimension ((saMove prob env nter s).xOLD)) := by
  have hDceq : Dc_of prob = prob.dimension := by
    unfold Dc_of
    rw [hi]
    exact Nat.sub_zero prob.dimension
  unfold evolve at hrun
  by_cases g1 : Dc_of prob = 0
  · rw [if_pos g1] at hrun
    exact Except.noConfusion hrun
  rw [if_neg g1] at hrun
  by_cases g2 : prob.c_dimension ≠ 0
  · rw [if_pos g2] at hrun
    exact Except.noConfusion hrun
  rw [if_neg g2] at hrun
  by_cases g3 : prob.f_dimension ≠ 1
  · rw [if_pos g3] at hrun
    exact Except.noConfusion hrun
  rw [if_neg g3] at hrun
  by_cases g4 : niterOuterOf p (Dc_of prob) = 0
  · rw [if_pos g4] at hrun
    exact Except.noConfusion hrun
  rw [if_neg g4] at hrun
  have hfp : finalPop p env prob pop = pop' := Except.ok.inj hrun
  have hDc0 : 0 < Dc_of prob := Nat.pos_of_ne_zero g1
  have hblt : get_best_idx prob.compare_fitness pop < pop.length := by
    rw [hcmp]
    exact (get_best_idx_spec pop hne).1
  have hmem : pop.getD (get_best_idx prob.compare_fitness pop) pindDefault ∈ pop :=
    getD_mem pop _ pindDefault hblt
  have h0 : SInv prob (Dc_of prob) (s0Of p prob pop) := by
    refine ⟨rfl, ?_, ?_⟩
    · show InBounds prob.lb prob.ub (Dc_of prob)
        (pop.getD (get_best_idx prob.compare_fitness pop) pindDefault).cur_x
      rw [hDceq]
      exact hbnd _ hmem
    · exact heval _ hmem
  have hSF := saFinal_SInv p env prob pop hDc0 h0
  subst hfp
  refine ⟨?_, ?_, ?_⟩
  · cases hfb : prob.compare_fitness (saFinal p env prob pop).fOLD
        ((pop.getD (get_best_idx prob.compare_fitness pop) pindDefault).cur_f) with
    | false =>
      simp only [finalPop, hfb, Bool.false_eq_true, if_false]
      exact le_refl _
    | true =>
      simp only [finalPop, hfb, if_true]
      rw [hcmp] at hblt hfb ⊢
      refine le_of_lt (lt_of_le_of_lt
        (best_after_write prob pop _ (saFinal p env prob pop).xOLD _ hblt hne) ?_)
      rw [← hSF.2.2]
      simp only [cmpScalar] at hfb
      exact of_decide_eq_true hfb
  · rw [← hDceq]
    exact hSF.2.1
  · intro s nter hnt hbs
    exact saMove_bounds prob env prob.dimension nter s hnt hbs

/-! ### C1: the final write-back -/

theorem zipWith_sub_self (l : List ℚ) :
    List.zipWith (fun a b => a - b) l l = l.map (fun _ => (0 : ℚ)) := by
  induction l with
  | nil => rfl
  | cons x t ih => simp [List.zipWith, ih]

theorem evolve_ok (p : SAParams) (env : SAEnv) (prob : Problem)
    (pop pop' : List PopIndividual) (hrun : evolve p env prob pop = Except.ok pop') :
    finalPop p env prob pop = pop' := by
  unfold evolve at hrun
  by_cases g1 : Dc_of prob = 0
  · rw [if_pos g1] at hrun
    exact Except.noConfusion hrun
  rw [if_neg g1] at hrun
  by_cases g2 : prob.c_dimension ≠ 0
  · rw [if_pos g2] at hrun
    exact Except.noConfusion hrun
  rw [if_neg g2] at hrun
  by_cases g3 : prob.f_dimension ≠ 1
  · rw [if_pos g3] at hrun
    exact Except.noConfusion hrun
  rw [if_neg g3] at hrun
  by_cases g4 : niterOuterOf p (Dc_of prob) = 0
  · rw [if_pos g4] at hrun
    exact Except.noConfusion hrun
  rw [if_neg g4] at hrun
  exact Except.ok.inj hrun

/-- C1 (amended): after a successful run of `sa_corana::evolve`, when the
final accepted point strictly improves (per `compare_fitness`) on the best
individual's starting fitness, the best individual's decision vector is
overwritten with the final point and its velocity vector is set to the
coordinate-wise difference between the final point and the already
overwritten decision vector — i.e. the zero vector (the `std::transform` on
line 192 of sa_corana.cpp reads `cur_x` after `set_x` has stored the final
point there); otherwise the population is returned unchanged.  In either
case no individual other than the best one is modified. -/
theorem evolve_C1_amended (p : SAParams) (env : SAEnv) (prob : Problem)
    (pop pop' : List PopIndividual)
    (hrun : evolve p env prob pop = Except.ok pop')
    (hblt : get_best_idx prob.compare_fitness pop < pop.length) :
    (prob.compare_fitness (saFinal p env prob pop).fOLD
        ((pop.getD (get_best_idx prob.compare_fitness pop) pindDefault).cur_f) = true →
      pop'.length = pop.length ∧
      (pop'.getD (get_best_idx prob.compare_fitness pop) pindDefault).cur_x
        = (saFinal p env prob pop).xOLD ∧
      (pop'.getD (get_best_idx prob.compare_fitness pop) pindDefault).cur_v
        = (saFinal p env prob pop).xOLD.map (fun _ => (0 : ℚ)) ∧
      (∀ j, j ≠ get_best_idx prob.compare_fitness pop →
        pop'.getD j pindDefault = pop.getD j pindDefault)) ∧
    (prob.compare_fitness (saFinal p env prob pop).fOLD
        ((pop.getD (get_best_idx prob.compare_fitness pop) pindDefault).cur_f) = false →
      pop' = pop) := by
  have hfp := evolve_ok p env prob pop pop' hrun
  subst hfp
  constructor
  · intro hfb
    simp only [finalPop, hfb, if_true]
    have hAx : ((set_x prob (get_best_idx prob.compare_fitness pop)
        (saFinal p env prob pop).xOLD pop).getD
          (get_best_idx prob.compare_fitness pop) pindDefault).cur_x
        = (saFinal p env prob pop).xOLD := by
      unfold set_x
      rw [getD_set_self pop _ _ pindDefault hblt]
    rw [hAx, zipWith_sub_self]
    have hlen1 : (set_x prob (get_best_idx prob.compare_fitness pop)
        (saFinal p env prob pop).xOLD pop).length = pop.length := by
      unfold set_x
      exact List.length_set pop _ _
    have hBlt1 : get_best_idx prob.compare_fitness pop
        < (set_x prob (get_best_idx prob.compare_fitness pop)
            (saFinal p env prob pop).xOLD pop).length := by
      rw [hlen1]
      exact hblt
    refine ⟨?_, ?_, ?_, ?_⟩
    · unfold set_v set_x
      rw [List.length_set, List.length_set]
    · unfold set_v
      rw [getD_set_self _ _ _ pindDefault hBlt1]
      show ((set_x prob (get_best_idx prob.compare_fitness pop)
        (saFinal p env prob pop).xOLD pop).getD
          (get_best_idx prob.compare_fitness pop) pindDefault).cur_x
        = (saFinal p env prob pop).xOLD
      exact hAx
    · unfold set_v
      rw [getD_set_self _ _ _ pindDefault hBlt1]
    · intro j hj
      unfold set_v set_x
      rw [getD_set_ne _ _ _ _ pindDefault (fun he => hj he.symm),
        getD_set_ne _ _ _ _ pindDefault (fun he => hj he.symm)]
  · intro hfb
    simp only [finalPop, hfb, Bool.false_eq_true, if_false]

/-- C1 counterexample: a concrete one-dimensional run in which the final
point strictly improves on the champion, so the write-back branch fires;
the champion's decision vector moves from `[1/2]` to `[0]`, yet the stored
velocity is the zero vector `[0]`, which differs from the coordinate-wise
difference between the old and the new decision vector (`[1/2]`, or
`[-1/2]` with the opposite sign convention): the claim's velocity clause
is false on the code. -/
theorem evolve_C1_counterexample :
    probEx.compare_fitness (saFinal paramsEx envEx probEx popEx).fOLD
        ((popEx.getD (get_best_idx probEx.compare_fitness popEx) pindDefault).cur_f) = true ∧
    evolve paramsEx envEx probEx popEx
      = Except.ok [{ cur_x := [0], cur_v := [0], cur_f := [0] }] ∧
    (popEx.getD (get_best_idx probEx.compare_fitness popEx) pindDefault).cur_x = [1/2] ∧
    (saFinal paramsEx envEx probEx popEx).xOLD = [0] ∧
    ([(0 : ℚ)] : List ℚ)
      ≠ List.zipWith (fun a b => a - b)
          ((popEx.getD (get_best_idx probEx.compare_fitness popEx) pindDefault).cur_x)
          ((saFinal paramsEx envEx probEx popEx).xOLD) ∧
    ([(0 : ℚ)] : List ℚ)
      ≠ List.zipWith (fun a b => a - b)
          ((saFinal paramsEx envEx probEx popEx).xOLD)
          ((popEx.getD (get_best_idx probEx.compare_fitness popEx) pindDefault).cur_x) := by
  decide

/-! ### Witnesses: the claim theorems applied at concrete inputs -/

def drawsHalf : ℕ → ℚ := fun _ => 1/2

def popEx5 : List Individual := [⟨[1], [0], 5⟩, ⟨[2], [0], 3⟩, ⟨[3], [0], 4⟩]

def popEx6 : List Individual := [⟨[1], [0], 5⟩, ⟨[2], [0], 3⟩]

def demeEx6 : List Individual := [⟨[9], [0], 4⟩, ⟨[8], [0], 7⟩]

def popEx7 : List Individual := [⟨[1], [0], 1⟩, ⟨[2], [0], 5⟩]

def demeEx7 : List Individual := [⟨[9], [0], 3⟩]

/-- A state whose next candidate leaves the box (step 2 on the unit box). -/
def sExOut : SAState :=
  { rk := 0, xNEW := [1/2], xOLD := [1/2], fNEW := [1/2], fOLD := [1/2],
    Step := [2], acp := [0], currentT := 1, nevals := 0 }

/-- A state whose next candidate stays inside the box. -/
def sEx9 : SAState :=
  { rk := 0, xNEW := [1/2], xOLD := [1/2], fNEW := [1/2], fOLD := [1/2],
    Step := [1/2], acp := [0], currentT := 1, nevals := 0 }

theorem extractRandomDeme_C5_witness :
    (extractRandomDeme popEx5 2 [7] drawsHalf).1.length = 2 ∧
    (extractRandomDeme popEx5 2 [7] drawsHalf).2
      = [7] ++ (demeLoop popEx5 drawsHalf 2 (List.range popEx5.length) 0).2 ∧
    (demeLoop popEx5 drawsHalf 2 (List.range popEx5.length) 0).2.Nodup :=
  have h := extractRandomDeme_C5 popEx5 2 [7] drawsHalf (by decide)
    (fun _ => ⟨(by decide : (0 : ℚ) ≤ 1/2), (by decide : (1 : ℚ)/2 < 1)⟩)
  ⟨h.1, h.2.1, h.2.2.2.1⟩

theorem insertDeme_C6_witness :
    ((insertDeme popEx6 demeEx6 [0, 1]).getD ([0, 1].getD 0 0) indDefault).fitness
      ≤ ((popEx6.getD ([0, 1].getD 0 0) indDefault).fitness) :=
  (insertDeme_C6 popEx6 demeEx6 [0, 1] (by decide) (by decide)).2.1 0 (by decide)

theorem insertBestInDeme_C7_witness :
    (insertBestInDeme popEx7 demeEx7 [1]).getD
        ([1].getD (ibdIdx popEx7 demeEx7 [1]).2.1 0) indDefault
      = demeEx7.getD (ibdIdx popEx7 demeEx7 [1]).1.1 indDefault :=
  (insertBestInDeme_C7 popEx7 demeEx7 [1] (by decide) (by decide) (by decide)
    (by decide)).2.2.2.2.2.2.1

theorem saMove_C2_witness :
    (saMove probEx envEx 0 sExOut).nevals = sExOut.nevals ∧
    (saMove probEx envEx 0 sExOut).xOLD = sExOut.xOLD :=
  have h := (saMove_C2 probEx envEx 0 sExOut).1 (by decide)
  ⟨h.2.2.1, h.1⟩

theorem saMove_C9_witness :
    (saMove probEx envEx 0 sEx9).nevals = sEx9.nevals + 1 ∧
    (saMove probEx envEx 0 sEx9).xOLD = sEx9.xOLD.set 0 (candOf probEx envEx 0 sEx9) :=
  have h := saMove_C9 probEx envEx 0 sEx9 (by decide)
    (fun _ hx => le_add_of_nonneg_right hx)
    (fun _ => (by decide : (0 : ℚ) < 1))
    (by decide)
  ⟨h.2.2.1, h.1⟩

theorem sa_corana_C3_amended_witness :
    (sa_corana_check paramsEx ≠ Except.ok ()) ↔
      (paramsEx.niter < 0 ∨ paramsEx.Ts ≤ paramsEx.Tf ∨ paramsEx.Ts ≤ 0 ∨
       paramsEx.Tf ≤ 0 ∨ paramsEx.niterT < 0 ∨ paramsEx.niterR < 0 ∨
       paramsEx.range < 0 ∨ 1 < paramsEx.range) :=
  sa_corana_C3_amended paramsEx

theorem evolve_C8_witness :
    (([{ cur_x := ([0] : List ℚ), cur_v := [0], cur_f := [0] }] :
        List PopIndividual).getD
      (get_best_idx probEx.compare_fitness
        [{ cur_x := ([0] : List ℚ), cur_v := [0], cur_f := [0] }]) pindDefault).cur_f.getD 0 0
      ≤ ((popEx.getD (get_best_idx probEx.compare_fitness popEx) pindDefault).cur_f).getD 0 0 :=
  (evolve_C8 paramsEx envEx probEx popEx
    [{ cur_x := [0], cur_v := [0], cur_f := [0] }]
    rfl rfl (by decide) (by decide) (by decide) (by decide)).1

theorem evolve_C1_amended_witness :
    (([{ cur_x := ([0] : List ℚ), cur_v := [0], cur_f := [0] }] :
        List PopIndividual).getD
      (get_best_idx probEx.compare_fitness popEx) pindDefault).cur_v
      = (saFinal paramsEx envEx probEx popEx).xOLD.map (fun _ => (0 : ℚ)) :=
  ((evolve_C1_amended paramsEx envEx probEx popEx
    [{ cur_x := [0], cur_v := [0], cur_f := [0] }]
    (by decide) (by decide)).1 (by decide)).2.2.1
